import Mathlib

/-!
# simple-ai-chatbox: the turn state machine of `main.go`

A shallow embedding of `model.Update`, of the delta consumer goroutine it
starts, and of `createModel`, followed by the properties of the turn state
machine proved about them.

Conventions of the embedding.

* Go strings coming from the text area are sequences of runes; they are Lean
  `String`s.
* `*m.state` is one shared integer cell, held in `World.state`.
* `m.options` is a pointer to a slice.  Slices live in `World.heap`, which
  maps an address to the slice stored there; `none` is the nil pointer, and
  `make` allocates at the address `World.next`, never used before.
* The backend client `m.client` is observed through the sequence of calls
  made on it (`World.calls`).  What the backend answers, what the text area
  does with a message and how the client renders itself are parameters
  (`Env`), because those libraries are not part of this repository.
* A goroutine started by `Update` is a `Task`; the scheduler runs one loop
  iteration (or the final assignment) of one task at a time.
* A run-time panic of the Go program is an `Except.error`.
* The viewport, the timer and the commands they return play no part in the
  state machine; of the viewport only the text it is given is kept
  (`model.disp`, before word wrapping), and the command returned by `Update`
  is either `tea.Quit` or the batch.
-/

namespace SimpleAiChatbox

/-! ## Library functions used by `main.go` -/

/-- Go's `unicode.IsSpace`: the White_Space code points. -/
def isSpace (c : Char) : Bool :=
  let n := c.toNat
  (0x09 ≤ n && n ≤ 0x0d) || n == 0x20 || n == 0x85 || n == 0xa0 || n == 0x1680 ||
    (0x2000 ≤ n && n ≤ 0x200a) || n == 0x2028 || n == 0x2029 || n == 0x202f ||
    n == 0x205f || n == 0x3000

/-- Go's `strings.TrimSpace`: drops the leading and the trailing white space. -/
def TrimSpace (s : String) : String :=
  String.mk ((((s.data.dropWhile isSpace).reverse).dropWhile isSpace).reverse)

/-- Size in bits of Go's `int` on the 64-bit targets the program is built for. -/
def intSize : Nat := 64

/-- Value of a non-empty run of decimal digits; `none` on an empty run or on
any other character (the syntax error of `strconv.ParseUint` in base 10). -/
def parseDigits : List Char → Option Nat
  | [] => none
  | cs => cs.foldl
      (fun acc c => acc.bind (fun n => if c.isDigit then some (n * 10 + (c.toNat - 48)) else none))
      (some 0)

/-- Go's `strconv.Atoi`: an optional sign followed by at least one decimal
digit and nothing else, the value within the range of `int`; `none` stands
for a non-nil `err` (syntax or range). -/
def Atoi (s : String) : Option Int :=
  match s.data with
  | [] => none
  | c :: rest =>
    let neg := c == '-'
    let ds := if c == '+' || c == '-' then rest else c :: rest
    match parseDigits ds with
    | none => none
    | some un =>
      if !neg && un ≥ 2 ^ (intSize - 1) then none
      else if neg && un > 2 ^ (intSize - 1) then none
      else some (if neg then - (un : Int) else (un : Int))

/-! ## Data -/

/-- The type `mac.MessageChunk`: one delta of one candidate. -/
structure MessageChunk where
  Index : Int
  Delta : String
deriving DecidableEq, Repr

/-- The calls `main.go` makes on the backend client. -/
inductive ClientCall where
  | AddModelDefinition (name key modelId : String)
  | SetSystemMessage (text : String)
  | CreateResponseWithPrompt (prompt : String) (second : String)
  | AddAssistantMessage (text : String)
deriving DecidableEq, Repr

/-- The key types `Update` distinguishes. -/
inductive KeyType where
  | KeyCtrlC
  | KeyEnter
  | KeyOther
deriving DecidableEq, Repr

/-- The messages `Update` distinguishes. -/
inductive Msg where
  | KeyMsg (key : KeyType)
  | WindowSizeMsg (Width Height : Int)
  | TimeoutMsg
  | StartStopMsg
  | OtherMsg
deriving DecidableEq, Repr

/-- The command returned by `Update`: `tea.Quit`, or the batch of widget and
timer commands. -/
inductive Cmd where
  | Quit
  | Batch
deriving DecidableEq, Repr

/-- Run-time panics of the Go program. -/
inductive Panic where
  | nilDereference
  | indexOutOfRange
deriving DecidableEq, Repr

deriving instance DecidableEq for Except

/-- The fields of the Go struct `model` the state machine reads and writes.
`input` is the value of the text area, `disp` the text handed to
`wordwrap.String` for the viewport, `options` a pointer into the heap. -/
structure model where
  input : String
  instruction : String
  disp : String
  systemPrompt : String
  options : Option Nat
  ready : Bool
deriving DecidableEq, Repr

/-- A running consumer goroutine `go func(i, ch, options)`: the events still
to come on `ch` before it is closed, and the slice pointer it writes to. -/
structure Task where
  i : Nat
  ch : List MessageChunk
  options : Nat
deriving DecidableEq, Repr

/-- The program state: the model value held by the runtime, the shared cell
`*m.state`, the slices by address, the next address to allocate, the calls
made on the client so far and the running consumer goroutines. -/
structure World where
  m : model
  state : Int
  heap : Nat → List String
  next : Nat
  calls : List ClientCall
  tasks : List Task

/-- The collaborators outside this repository.  `textareaUpdate v msg` is the
value of the text area after `m.input.Update(msg)`; `CreateResponseWithPrompt`
gives, from the calls made before and the two arguments, the expected number
of candidates and the events of the returned channel up to its closure;
`clientString` is `m.client.String()`. -/
structure Env where
  textareaUpdate : String → Msg → String
  CreateResponseWithPrompt : List ClientCall → String → String → Nat × List MessageChunk
  clientString : List ClientCall → String

/-! ## `model.Update` -/

/-- The instruction of `createModel` (line 223). -/
def instructionSystem : String :=
  "Enter a system message (or leave empty) and press Enter to set it. Press Ctrl+C to quit."

/-- The instruction of lines 101 and 158. -/
def instructionMessage : String :=
  "Enter a message and press Enter to send it. Press Ctrl+C to quit."

/-- The instruction of lines 114 and 144. -/
def instructionWait : String := "Wait..."

/-- The instruction of line 129. -/
def instructionChoose : String :=
  "Choose an option by typing its number and pressing Enter, typing anything else will regenerate the reply. Press Ctrl+C to quit."

/-- Dereference of a slice pointer. -/
def deref (heap : Nat → List String) (p : Option Nat) : Except Panic (List String) :=
  match p with
  | none => .error .nilDereference
  | some a => .ok (heap a)

/-- Lines 111-124 and 141-154: request a generation for the trimmed input,
reset the input, allocate the candidate slice and start the consumer. -/
def generate (env : Env) (w : World) : World :=
  let prompt := TrimSpace w.m.input
  let r := env.CreateResponseWithPrompt w.calls prompt ""
  let a := w.next
  { m := { w.m with input := "", instruction := instructionWait, options := some a }
    state := -1
    heap := Function.update w.heap a (List.replicate r.1 "")
    next := a + 1
    calls := w.calls ++ [ClientCall.CreateResponseWithPrompt prompt ""]
    tasks := w.tasks ++ [{ i := r.1, ch := r.2, options := a }] }

/-- Lines 156-159: commit the chosen candidate. -/
def commit (w : World) (r : String) : World :=
  { w with
    m := { w.m with input := "", instruction := instructionMessage }
    calls := w.calls ++ [ClientCall.AddAssistantMessage r]
    state := 1 }

/-- Lines 94-101: set the system prompt. -/
def setSystemPrompt (w : World) : World :=
  let sp := TrimSpace w.m.input
  let calls1 := if sp ≠ "" then w.calls ++ [ClientCall.SetSystemMessage sp] else w.calls
  { w with
    m := { w.m with systemPrompt := sp, input := "", instruction := instructionMessage }
    calls := calls1 ++ [ClientCall.SetSystemMessage sp]
    state := 1 }

/-- Lines 138-160: Enter in state 3.  The three tests of line 140 are made
from left to right, the slice being read only by the third. -/
def choose (env : Env) (w : World) : Except Panic World :=
  let val := TrimSpace w.m.input
  match Atoi val with
  | none => .ok (generate env w)
  | some num =>
    if num < 0 then .ok (generate env w)
    else
      match deref w.heap w.m.options with
      | .error e => .error e
      | .ok opts =>
        if num ≥ opts.length then .ok (generate env w)
        else
          match opts[num.toNat]? with
          | none => .error .indexOutOfRange
          | some r => .ok (commit w r)

/-- Lines 79-163: the chain on `*m.state`.  The boolean is `true` on the
early `return m, tea.Quit`. -/
def handle (env : Env) (w : World) (msg : Msg) : Except Panic (World × Bool) :=
  if w.state = -1 then
    match msg with
    | .KeyMsg key =>
      match key with
      | .KeyCtrlC => .ok (w, true)
      | .KeyEnter => .ok (w, false)
      | .KeyOther => .ok (w, false)
    | _ => .ok (w, false)
  else if w.state = 0 then
    match msg with
    | .KeyMsg key =>
      match key with
      | .KeyCtrlC => .ok (w, true)
      | .KeyEnter => .ok (setSystemPrompt w, false)
      | .KeyOther => .ok (w, false)
    | _ => .ok (w, false)
  else if w.state = 1 then
    match msg with
    | .KeyMsg key =>
      match key with
      | .KeyCtrlC => .ok (w, true)
      | .KeyEnter => .ok (generate env w, false)
      | .KeyOther => .ok (w, false)
    | _ => .ok (w, false)
  else if w.state = 2 then
    .ok ({ w with m := { w.m with input := "", instruction := instructionChoose }, state := 3 },
      false)
  else if w.state = 3 then
    match msg with
    | .KeyMsg key =>
      match key with
      | .KeyCtrlC => .ok (w, true)
      | .KeyEnter =>
        match choose env w with
        | .error e => .error e
        | .ok w1 => .ok (w1, false)
      | .KeyOther => .ok (w, false)
    | _ => .ok (w, false)
  else .ok (w, false)

/-- Line 168: `fmt.Sprintf("\nResponse %d: %s\n", i, r)`. -/
def responseBlock (i : Nat) (r : String) : String :=
  "\nResponse " ++ toString i ++ ": " ++ r ++ "\n"

/-- Lines 167-169: the loop appending one block per candidate, `i` being the
index of the head of the list. -/
def renderLoop : Nat → List String → String → String
  | _, [], disp => disp
  | i, r :: rest, disp => renderLoop (i + 1) rest (disp ++ responseBlock i r)

/-- Lines 165-175: the text handed to `wordwrap.String`. -/
def display (env : Env) (w : World) : Except Panic String :=
  match w.m.options with
  | some a =>
    if w.state ≠ 1 then
      match deref w.heap (some a) with
      | .error e => .error e
      | .ok opts => .ok (renderLoop 0 opts (env.clientString w.calls ++ "\n"))
    else .ok (env.clientString w.calls)
  | none => .ok (env.clientString w.calls)

/-- Lines 55-77: the widgets see the message first; the text area may change
its value, a window size makes the model ready. -/
def receive (env : Env) (w : World) (msg : Msg) : World :=
  let m1 := { w.m with input := env.textareaUpdate w.m.input msg }
  let m2 := match msg with
    | .WindowSizeMsg _ _ => { m1 with ready := true }
    | _ => m1
  { w with m := m2 }

/-- The method `model.Update`. -/
def Update (env : Env) (w : World) (msg : Msg) : Except Panic (World × Cmd) :=
  match handle env (receive env w msg) msg with
  | .error e => .error e
  | .ok (w1, true) => .ok (w1, Cmd.Quit)
  | .ok (w1, false) =>
    match display env w1 with
    | .error e => .error e
    | .ok d => .ok ({ w1 with m := { w1.m with disp := d } }, Cmd.Batch)

/-! ## The consumer goroutine -/

/-- Line 121: `(*options)[chunk.Index] += chunk.Delta`. -/
def applyChunk (options : List String) (chunk : MessageChunk) : Except Panic (List String) :=
  if chunk.Index < 0 then .error .indexOutOfRange
  else
    match options[chunk.Index.toNat]? with
    | none => .error .indexOutOfRange
    | some s => .ok (options.set chunk.Index.toNat (s ++ chunk.Delta))

/-- Lines 120-122: `for chunk := range ch`, on a channel that delivers `ch`
and is then closed. -/
def drain : List String → List MessageChunk → Except Panic (List String)
  | options, [] => .ok options
  | options, chunk :: rest =>
    match applyChunk options chunk with
    | .error e => .error e
    | .ok options1 => drain options1 rest

/-- One scheduling step of the consumer goroutine number `t`: one iteration
of its loop when an event is pending, the assignment `*m.state = 2` and its
end once the channel is closed.  Nothing happens when there is no such
goroutine. -/
def taskStep (w : World) (t : Nat) : Except Panic World :=
  match w.tasks[t]? with
  | none => .ok w
  | some task =>
    match task.ch with
    | [] => .ok { w with state := 2, tasks := w.tasks.eraseIdx t }
    | chunk :: rest =>
      match deref w.heap (some task.options) with
      | .error e => .error e
      | .ok opts =>
        match applyChunk opts chunk with
        | .error e => .error e
        | .ok opts1 =>
          .ok { w with
                heap := Function.update w.heap task.options opts1
                tasks := w.tasks.set t { task with ch := rest } }

/-! ## `createModel` and the runs of the program -/

/-- The function `createModel`, as the state the program starts in. -/
def createModel (aKey oKey mKey : String) : World :=
  { m := { input := "", instruction := instructionSystem, disp := "", systemPrompt := "",
           options := none, ready := false }
    state := 0
    heap := fun _ => []
    next := 0
    calls := [ClientCall.AddModelDefinition "Claude" aKey "claude-3-opus-20240229",
              ClientCall.AddModelDefinition "GPT4" oKey "gpt-4-turbo-preview",
              ClientCall.AddModelDefinition "Mistral Large" mKey "mistral-large-latest"]
    tasks := [] }

/-- What can happen next: the runtime delivers a message to `Update`, or the
scheduler runs consumer goroutine number `t`. -/
inductive Event where
  | update (msg : Msg)
  | consumer (t : Nat)
deriving DecidableEq, Repr

/-- One step of the program. -/
def step (env : Env) (w : World) : Event → Except Panic World
  | .update msg =>
    match Update env w msg with
    | .error e => .error e
    | .ok r => .ok r.1
  | .consumer t => taskStep w t

/-- A run of the program: the events taken one after the other. -/
def run (env : Env) : World → List Event → Except Panic World
  | w, [] => .ok w
  | w, ev :: evs =>
    match step env w ev with
    | .error e => .error e
    | .ok w1 => run env w1 evs

/-! ## Notions used by the statements -/

/-- The text submitted by Enter: the value of the text area once it has seen
the key. -/
def submitted (env : Env) (w : World) : String :=
  env.textareaUpdate w.m.input (Msg.KeyMsg KeyType.KeyEnter)

/-- The candidate set the model points to, if any. -/
def candidates (w : World) : Option (List String) := w.m.options.map w.heap

/-- The state after a generation request for `prompt` answered by `r`. -/
def Generated (w w1 : World) (prompt : String) (r : Nat × List MessageChunk) : Prop :=
  w1.calls = w.calls ++ [ClientCall.CreateResponseWithPrompt prompt ""] ∧
  w1.m.options = some w.next ∧
  w1.heap w.next = List.replicate r.1 "" ∧
  (∀ b, b ≠ w.next → w1.heap b = w.heap b) ∧
  w1.next = w.next + 1 ∧
  w1.tasks = w.tasks ++ [{ i := r.1, ch := r.2, options := w.next }] ∧
  w1.state = -1

/-- The fragments of the deltas of `ch` that name index `i`, concatenated in
arrival order. -/
def fragments (i : Nat) : List MessageChunk → String
  | [] => ""
  | chunk :: rest =>
    if chunk.Index = (i : Int) then chunk.Delta ++ fragments i rest else fragments i rest

/-- The rendering of all candidates: the block of each one, in order, the
first one numbered `i`. -/
def renderAllFrom : Nat → List String → String
  | _, [] => ""
  | i, r :: rest => responseBlock i r ++ renderAllFrom (i + 1) rest

/-- The rendering of all candidates, numbered from 0. -/
def renderAll (cands : List String) : String := renderAllFrom 0 cands

/-- The display as the specification words it: the log, a line break and all
candidates when a candidate set exists and the phase is not `Generating`
(-1); the log alone otherwise. -/
def specDisplay (phase : Int) (log : String) (cands : Option (List String)) : String :=
  match cands with
  | some cs => if phase ≠ -1 then log ++ "\n" ++ renderAll cs else log
  | none => log

/-- The display with the test the program makes: the log, a line break and
all candidates when a candidate set exists and the phase is not
`AwaitingUserMessage` (1); the log alone otherwise. -/
def shownDisplay (phase : Int) (log : String) (cands : Option (List String)) : String :=
  match cands with
  | some cs => if phase ≠ 1 then log ++ "\n" ++ renderAll cs else log
  | none => log

/-- The invariant of the runs: the state is one of the five phases, and the
pointer is not nil in the states -1, 2 and 3 nor while a consumer runs. -/
def Inv (w : World) : Prop :=
  (w.state = -1 ∨ w.state = 0 ∨ w.state = 1 ∨ w.state = 2 ∨ w.state = 3) ∧
  ((w.state = -1 ∨ w.state = 2 ∨ w.state = 3) → w.m.options ≠ none) ∧
  (w.tasks ≠ [] → w.m.options ≠ none)

/-! ## Example states and runs -/

/-- A backend that announces two candidates and streams three deltas, a text
area that keeps its value, and a client rendered as its number of calls. -/
def exEnv : Env :=
  { textareaUpdate := fun v _ => v
    CreateResponseWithPrompt := fun _ _ _ => (2, [⟨0, "a"⟩, ⟨0, "b"⟩, ⟨1, "c"⟩])
    clientString := fun calls => "log" ++ toString calls.length }

/-- A state with the given phase and input, two candidates at address 0. -/
def exWorld (state : Int) (input : String) : World :=
  { m := { input := input, instruction := "", disp := "", systemPrompt := "",
           options := some 0, ready := true }
    state := state
    heap := fun _ => ["first", "second"]
    next := 1
    calls := []
    tasks := [] }

/-- A state in `Busy` whose consumer has two deltas pending, for the indices
0 and 2 of a fresh slice of three candidates. -/
def exBusy : World :=
  { m := { input := "", instruction := instructionWait, disp := "", systemPrompt := "",
           options := some 0, ready := true }
    state := -1
    heap := fun _ => ["", "", ""]
    next := 1
    calls := []
    tasks := [{ i := 3, ch := [⟨0, "x"⟩, ⟨2, "y"⟩], options := 0 }] }

/-- A run from `createModel` to `ChoosingCandidate`: the system prompt, a
message, the three deltas and the closure of the channel, one more message. -/
def exEvents : List Event :=
  [Event.update (Msg.KeyMsg KeyType.KeyEnter), Event.update (Msg.KeyMsg KeyType.KeyEnter),
   Event.consumer 0, Event.consumer 0, Event.consumer 0, Event.consumer 0,
   Event.update Msg.OtherMsg]

/-- A run from `createModel` to `CandidatesReady`: the system prompt, a
message, the three deltas and the closure of the channel. -/
def exEventsReady : List Event :=
  [Event.update (Msg.KeyMsg KeyType.KeyEnter), Event.update (Msg.KeyMsg KeyType.KeyEnter),
   Event.consumer 0, Event.consumer 0, Event.consumer 0, Event.consumer 0]

/-- The state the run `exEvents` ends in. -/
def exReached : World :=
  match run exEnv (createModel "a" "o" "m") exEvents with
  | .ok w => w
  | .error _ => createModel "a" "o" "m"

/-! ## Lemmas on `Update` -/

/-- What `generate` returns is a `Generated` state, whatever the display. -/
theorem generate_Generated (env : Env) (w : World) (d : String) :
    Generated w { generate env w with m := { (generate env w).m with disp := d } }
      (TrimSpace w.m.input) (env.CreateResponseWithPrompt w.calls (TrimSpace w.m.input) "") := by
  refine ⟨rfl, rfl, ?_, ?_, rfl, rfl, rfl⟩
  · simp [generate]
  · intro b hb
    simp [generate, Function.update_noteq hb]

/-- The slice allocated by a generation has the expected length and holds
empty strings only. -/
theorem Generated_fresh {w w1 : World} {prompt : String} {r : Nat × List MessageChunk}
    (h : Generated w w1 prompt r) :
    (w1.heap w.next).length = r.1 ∧ ∀ s ∈ w1.heap w.next, s = "" := by
  rw [h.2.2.1]
  exact ⟨List.length_replicate _ _, fun s hs => List.eq_of_mem_replicate hs⟩

/-- The display step cannot fail. -/
theorem display_ok (env : Env) (w : World) : ∃ d, display env w = Except.ok d := by
  unfold display
  cases w.m.options with
  | none => exact ⟨_, rfl⟩
  | some a =>
    by_cases h : w.state = 1
    · exact ⟨env.clientString w.calls, by simp [h]⟩
    · exact ⟨renderLoop 0 (w.heap a) (env.clientString w.calls ++ "\n"), by simp [h, deref]⟩

/-- When the chain on the state does not quit, `Update` returns its result
with the display refreshed. -/
theorem Update_of_handle {env : Env} {w w0 : World} {msg : Msg}
    (h : handle env (receive env w msg) msg = Except.ok (w0, false)) :
    ∃ d, display env w0 = Except.ok d ∧
      Update env w msg = Except.ok ({ w0 with m := { w0.m with disp := d } }, Cmd.Batch) := by
  obtain ⟨d, hd⟩ := display_ok env w0
  exact ⟨d, hd, by simp [Update, h, hd]⟩

/-- When the chain on the state quits, so does `Update`. -/
theorem Update_of_quit {env : Env} {w w0 : World} {msg : Msg}
    (h : handle env (receive env w msg) msg = Except.ok (w0, true)) :
    Update env w msg = Except.ok (w0, Cmd.Quit) := by
  simp [Update, h]

/-- In state 2 the chain on the state takes the branch of lines 127-130,
whatever the message. -/
theorem handle_candidates_ready (env : Env) (w : World) (msg : Msg) (hstate : w.state = 2) :
    handle env w msg
      = Except.ok ({ w with
          m := { w.m with input := "", instruction := instructionChoose }
          state := 3 }, false) := by
  simp [handle, hstate]

/-- In the states -1, 0, 1 and 3 the key Ctrl-C makes `Update` return
`tea.Quit` at once, the state and the consumers untouched. -/
theorem ctrlC_quits (env : Env) (w : World)
    (hstate : w.state = -1 ∨ w.state = 0 ∨ w.state = 1 ∨ w.state = 3) :
    Update env w (Msg.KeyMsg KeyType.KeyCtrlC)
      = Except.ok (receive env w (Msg.KeyMsg KeyType.KeyCtrlC), Cmd.Quit) := by
  apply Update_of_quit
  have hs : (receive env w (Msg.KeyMsg KeyType.KeyCtrlC)).state = w.state := rfl
  rcases hstate with h | h | h | h <;> simp [handle, hs, h]

/-! ## Lemmas on the consumer -/

/-- A delta whose index is within the slice is applied without panic. -/
theorem applyChunk_ok (options : List String) (chunk : MessageChunk)
    (h0 : 0 ≤ chunk.Index) (h1 : chunk.Index < options.length) :
    ∃ s, options[chunk.Index.toNat]? = some s ∧
      applyChunk options chunk = Except.ok (options.set chunk.Index.toNat (s ++ chunk.Delta)) := by
  have hlt : chunk.Index.toNat < options.length := by omega
  refine ⟨options.get ⟨chunk.Index.toNat, hlt⟩, by simp [List.getElem?_eq_getElem hlt], ?_⟩
  have hn : ¬ chunk.Index < 0 := by omega
  simp [applyChunk, hn, List.getElem?_eq_getElem hlt]

/-- Draining a stream whose indices are within the slice ends without panic,
keeps the length, and appends to each entry its fragments in arrival order. -/
theorem drain_spec (ch : List MessageChunk) :
    ∀ options : List String,
      (∀ c ∈ ch, 0 ≤ c.Index ∧ c.Index < (options.length : Int)) →
      ∃ r, drain options ch = Except.ok r ∧ r.length = options.length ∧
        ∀ i s, options[i]? = some s → r[i]? = some (s ++ fragments i ch) := by
  induction ch with
  | nil =>
    intro options _
    exact ⟨options, rfl, rfl, fun i s hs => by simp [fragments, hs]⟩
  | cons c rest ih =>
    intro options h
    have hc := h c (List.mem_cons_self _ _)
    obtain ⟨s0, hs0, hap⟩ := applyChunk_ok options c hc.1 hc.2
    have hlen : (options.set c.Index.toNat (s0 ++ c.Delta)).length = options.length :=
      List.length_set _ _ _
    obtain ⟨r, hr, hrl, hri⟩ := ih (options.set c.Index.toNat (s0 ++ c.Delta)) (by
      intro c1 hc1
      rw [hlen]
      exact h c1 (List.mem_cons_of_mem _ hc1))
    refine ⟨r, by simp [drain, hap, hr], hrl.trans hlen, ?_⟩
    intro i s hs
    by_cases hi : c.Index = (i : Int)
    · have hti : c.Index.toNat = i := by omega
      rw [hti] at hs0
      have hss : s0 = s := Option.some.inj (hs0.symm.trans hs)
      have hlt : i < options.length := by
        rcases List.getElem?_eq_some_iff.mp hs with ⟨hl, -⟩
        exact hl
      have := hri i (s0 ++ c.Delta) (by rw [hti]; exact List.getElem?_set_self hlt)
      rw [this, hss]
      simp [fragments, hi, String.append_assoc]
    · have hti : c.Index.toNat ≠ i := by omega
      have := hri i s (by rw [List.getElem?_set_ne hti]; exact hs)
      rw [this]
      simp [fragments, hi]

/-- Scheduled until its end, a consumer whose pending deltas are within its
slice ends without panic in state 2, its slice holding what `drain` gives. -/
theorem consumer_run (env : Env) (ch : List MessageChunk) :
    ∀ (w : World) (t : Nat) (task : Task), w.tasks[t]? = some task → task.ch = ch →
      (∀ c ∈ ch, 0 ≤ c.Index ∧ c.Index < ((w.heap task.options).length : Int)) →
      ∃ w1 r, run env w (List.replicate (ch.length + 1) (Event.consumer t)) = Except.ok w1 ∧
        w1.state = 2 ∧ drain (w.heap task.options) ch = Except.ok r ∧
        w1.heap task.options = r ∧ w1.m = w.m := by
  induction ch with
  | nil =>
    intro w t task ht hch _
    refine ⟨{ w with state := 2, tasks := w.tasks.eraseIdx t }, w.heap task.options, ?_, rfl, rfl,
      rfl, rfl⟩
    simp [run, step, taskStep, ht, hch]
  | cons c rest ih =>
    intro w t task ht hch hrange
    have hc := hrange c (List.mem_cons_self _ _)
    obtain ⟨s0, -, hap⟩ := applyChunk_ok (w.heap task.options) c hc.1 hc.2
    have htl : t < w.tasks.length := by
      rcases List.getElem?_eq_some_iff.mp ht with ⟨hl, -⟩
      exact hl
    have hstep : step env w (Event.consumer t) = Except.ok
        { w with
          heap := Function.update w.heap task.options
            ((w.heap task.options).set c.Index.toNat (s0 ++ c.Delta))
          tasks := w.tasks.set t { task with ch := rest } } := by
      simp [step, taskStep, ht, hch, deref, hap]
    obtain ⟨w1, r, hrun, hst, hdr, hheap, hm⟩ := ih
      { w with
        heap := Function.update w.heap task.options
          ((w.heap task.options).set c.Index.toNat (s0 ++ c.Delta))
        tasks := w.tasks.set t { task with ch := rest } }
      t { task with ch := rest } (List.getElem?_set_self htl) rfl (by
        intro c1 hc1
        simpa using hrange c1 (List.mem_cons_of_mem _ hc1))
    refine ⟨w1, r, ?_, hst, ?_, hheap, hm⟩
    · simp only [List.length_cons, List.replicate_succ, run, hstep]
      simpa [List.replicate_succ] using hrun
    · simpa [drain, hap] using hdr

/-! ## Lemmas on the display -/

/-- The loop of lines 167-169 appends the rendering of the candidates. -/
theorem renderLoop_eq (cands : List String) :
    ∀ (i : Nat) (disp : String), renderLoop i cands disp = disp ++ renderAllFrom i cands := by
  induction cands with
  | nil => intro i disp; simp [renderLoop, renderAllFrom]
  | cons r rest ih =>
    intro i disp
    simp [renderLoop, renderAllFrom, ih, String.append_assoc]

/-- Lines 165-175 compute `shownDisplay`. -/
theorem display_eq (env : Env) (w : World) :
    display env w
      = Except.ok (shownDisplay w.state (env.clientString w.calls) (candidates w)) := by
  unfold display candidates shownDisplay
  cases w.m.options with
  | none => rfl
  | some a =>
    by_cases h : w.state = 1
    · simp [h]
    · simp [h, deref, renderLoop_eq, renderAll]

/-! ## Lemmas on the invariant -/

/-- The invariant holds at the start. -/
theorem Inv_createModel (aKey oKey mKey : String) : Inv (createModel aKey oKey mKey) := by
  refine ⟨Or.inr (Or.inl rfl), ?_, ?_⟩
  · intro h
    rcases h with h | h | h <;> simp [createModel] at h
  · intro h
    simp [createModel] at h

/-- The invariant holds after a generation request. -/
theorem Inv_generate (env : Env) (w : World) : Inv (generate env w) := by
  refine ⟨Or.inl rfl, ?_, ?_⟩ <;> intro _ <;> simp [generate]

/-- The invariant reads the state, the pointer and the consumers only. -/
theorem Inv_congr {w w1 : World} (hs : w1.state = w.state) (ho : w1.m.options = w.m.options)
    (ht : w1.tasks = w.tasks) (h : Inv w) : Inv w1 := by
  unfold Inv at *
  rw [hs, ho, ht]
  exact h

/-- The widgets leave the pointer alone. -/
theorem receive_options (env : Env) (w : World) (msg : Msg) :
    (receive env w msg).m.options = w.m.options := by
  cases msg <;> rfl

/-- The widgets keep the invariant. -/
theorem Inv_receive (env : Env) (w : World) (msg : Msg) (h : Inv w) :
    Inv (receive env w msg) :=
  @Inv_congr w (receive env w msg) rfl (receive_options env w msg) rfl h

/-- Enter in state 3 with a non-nil pointer returns normally, having either
requested a generation or committed a candidate. -/
theorem choose_ok (env : Env) (w : World) (hopt : w.m.options ≠ none) :
    choose env w = Except.ok (generate env w) ∨ ∃ r, choose env w = Except.ok (commit w r) := by
  obtain ⟨a, ha⟩ := Option.ne_none_iff_exists'.mp hopt
  simp only [choose]
  cases hA : Atoi (TrimSpace w.m.input) with
  | none => exact Or.inl rfl
  | some k =>
    by_cases hneg : k < 0
    · exact Or.inl (by simp [hneg])
    · by_cases hge : k ≥ ((w.heap a).length : Int)
      · exact Or.inl (by simp [hneg, deref, ha, hge])
      · have hlt : k.toNat < (w.heap a).length := by omega
        refine Or.inr ⟨(w.heap a).get ⟨k.toNat, hlt⟩, ?_⟩
        have hge1 : ¬ ((w.heap a).length : Int) ≤ k := hge
        simp [hneg, deref, ha, hge1, List.getElem?_eq_getElem hlt]

/-- Under the invariant the chain on the state returns normally and keeps
the invariant. -/
theorem handle_ok (env : Env) (w : World) (msg : Msg) (h : Inv w) :
    ∃ w0 b, handle env w msg = Except.ok (w0, b) ∧ Inv w0 := by
  obtain ⟨hst, hopt, htask⟩ := h
  have hsame : Inv w := ⟨hst, hopt, htask⟩
  rcases hst with hs | hs | hs | hs | hs
  · cases msg with
    | KeyMsg key =>
      cases key
      · exact ⟨w, true, by simp [handle, hs], hsame⟩
      · exact ⟨w, false, by simp [handle, hs], hsame⟩
      · exact ⟨w, false, by simp [handle, hs], hsame⟩
    | _ => exact ⟨w, false, by simp [handle, hs], hsame⟩
  · have hset : Inv (setSystemPrompt w) :=
      ⟨Or.inr (Or.inr (Or.inl rfl)),
        by intro h; rcases h with h | h | h <;> simp [setSystemPrompt] at h, htask⟩
    cases msg with
    | KeyMsg key =>
      cases key
      · exact ⟨w, true, by simp [handle, hs], hsame⟩
      · exact ⟨setSystemPrompt w, false, by simp [handle, hs], hset⟩
      · exact ⟨w, false, by simp [handle, hs], hsame⟩
    | _ => exact ⟨w, false, by simp [handle, hs], hsame⟩
  · cases msg with
    | KeyMsg key =>
      cases key
      · exact ⟨w, true, by simp [handle, hs], hsame⟩
      · exact ⟨generate env w, false, by simp [handle, hs], Inv_generate env w⟩
      · exact ⟨w, false, by simp [handle, hs], hsame⟩
    | _ => exact ⟨w, false, by simp [handle, hs], hsame⟩
  · have ho := hopt (Or.inr (Or.inl hs))
    exact ⟨{ w with m := { w.m with input := "", instruction := instructionChoose }, state := 3 },
      false, by simp [handle, hs],
      ⟨Or.inr (Or.inr (Or.inr (Or.inr rfl))), fun _ => ho, fun _ => ho⟩⟩
  · have ho := hopt (Or.inr (Or.inr hs))
    cases msg with
    | KeyMsg key =>
      cases key
      · exact ⟨w, true, by simp [handle, hs], hsame⟩
      · rcases choose_ok env w ho with hc | ⟨r, hc⟩
        · exact ⟨generate env w, false, by simp [handle, hs, hc], Inv_generate env w⟩
        · refine ⟨commit w r, false, by simp [handle, hs, hc], ?_⟩
          exact ⟨Or.inr (Or.inr (Or.inl rfl)), fun _ => ho, fun _ => ho⟩
      · exact ⟨w, false, by simp [handle, hs], hsame⟩
    | _ => exact ⟨w, false, by simp [handle, hs], hsame⟩

/-- Under the invariant `Update` returns normally and keeps the invariant. -/
theorem Update_ok (env : Env) (w : World) (msg : Msg) (h : Inv w) :
    ∃ w1 cmd, Update env w msg = Except.ok (w1, cmd) ∧ Inv w1 := by
  obtain ⟨w0, b, hh, hinv⟩ := handle_ok env (receive env w msg) msg (Inv_receive env w msg h)
  cases b with
  | true => exact ⟨w0, Cmd.Quit, Update_of_quit hh, hinv⟩
  | false =>
    obtain ⟨d, -, hd⟩ := Update_of_handle hh
    exact ⟨_, Cmd.Batch, hd, Inv_congr rfl rfl rfl hinv⟩

/-- A step of a consumer keeps the invariant. -/
theorem taskStep_Inv (w w1 : World) (t : Nat) (h : Inv w) (hstep : taskStep w t = Except.ok w1) :
    Inv w1 := by
  unfold taskStep at hstep
  cases ht : w.tasks[t]? with
  | none =>
    simp [ht] at hstep
    exact hstep ▸ h
  | some task =>
    have hne : w.tasks ≠ [] := by
      intro hnil
      simp [hnil] at ht
    have ho := h.2.2 hne
    cases hch : task.ch with
    | nil =>
      simp [ht, hch] at hstep
      subst hstep
      exact ⟨Or.inr (Or.inr (Or.inr (Or.inl rfl))), fun _ => ho, fun _ => ho⟩
    | cons chunk rest =>
      simp only [ht, hch, deref] at hstep
      cases hac : applyChunk (w.heap task.options) chunk with
      | error e => simp [hac] at hstep
      | ok opts1 =>
        simp [hac] at hstep
        subst hstep
        exact ⟨h.1, h.2.1, fun _ => ho⟩

/-- Every run keeps the invariant. -/
theorem run_Inv (env : Env) (evs : List Event) :
    ∀ w w1, Inv w → run env w evs = Except.ok w1 → Inv w1 := by
  induction evs with
  | nil =>
    intro w w1 h hrun
    simp [run] at hrun
    exact hrun ▸ h
  | cons ev rest ih =>
    intro w w1 h hrun
    simp only [run] at hrun
    cases hs : step env w ev with
    | error e => simp [hs] at hrun
    | ok w2 =>
      simp only [hs] at hrun
      refine ih w2 w1 ?_ hrun
      cases ev with
      | update msg =>
        obtain ⟨w3, cmd, hU, hinv⟩ := Update_ok env w msg h
        simp [step, hU] at hs
        exact hs ▸ hinv
      | consumer t => exact taskStep_Inv w w2 t h hs

/-! ## The transitions on Enter -/

/-- C1: in `ChoosingCandidate` (state 3), when the trimmed input parses as an
integer `k` with `0 ≤ k < n`, `Update` on Enter returns normally, passes
exactly `candidates[k]` to `AddAssistantMessage` as its only call on the
client, starts no consumer, leaves every slice and the pointer as they were,
and sets the state to 1. -/
theorem choose_valid_index_commits (env : Env) (w : World) (a : Nat) (k : Int)
    (hstate : w.state = 3) (hptr : w.m.options = some a)
    (hparse : Atoi (TrimSpace (submitted env w)) = some k)
    (h0 : 0 ≤ k) (hk : k < (w.heap a).length) :
    ∃ c, (w.heap a)[k.toNat]? = some c ∧
      ∃ w1, Update env w (Msg.KeyMsg KeyType.KeyEnter) = Except.ok (w1, Cmd.Batch) ∧
        w1.calls = w.calls ++ [ClientCall.AddAssistantMessage c] ∧
        w1.tasks = w.tasks ∧ w1.heap = w.heap ∧ w1.next = w.next ∧
        w1.m.options = w.m.options ∧ w1.state = 1 := by
  have hlt : k.toNat < (w.heap a).length := by omega
  have hget : (w.heap a)[k.toNat]? = some ((w.heap a).get ⟨k.toNat, hlt⟩) := by
    simp [List.getElem?_eq_getElem hlt]
  have hnlt : ¬ k < 0 := by omega
  have hnge : ¬ (k ≥ ((w.heap a).length : Int)) := by omega
  refine ⟨(w.heap a).get ⟨k.toNat, hlt⟩, hget, ?_⟩
  unfold submitted at hparse
  simp [Update, receive, handle, choose, commit, display, deref, hstate, hparse, hptr, hnlt,
    hnge, hget]

theorem choose_valid_index_commits_witness :
    ∃ c, ["first", "second"][(1 : Int).toNat]? = some c ∧
      ∃ w1, Update exEnv (exWorld 3 " 1\n") (Msg.KeyMsg KeyType.KeyEnter)
          = Except.ok (w1, Cmd.Batch) ∧
        w1.calls = [ClientCall.AddAssistantMessage c] ∧
        w1.tasks = [] ∧ w1.heap = (exWorld 3 " 1\n").heap ∧ w1.next = 1 ∧
        w1.m.options = some 0 ∧ w1.state = 1 :=
  choose_valid_index_commits exEnv (exWorld 3 " 1\n") 0 1 rfl rfl (by decide) (by decide)
    (by decide)

/-- C2: in `ChoosingCandidate` (state 3), when the trimmed input does not
parse as an integer, or parses to a value outside `[0, n)`, `Update` on Enter
returns normally, its only call on the client is one generation request for
the trimmed input, the pointer is replaced by a fresh slice of the expected
count, a consumer is started on it and the state is -1. -/
theorem choose_otherwise_regenerates (env : Env) (w : World) (a : Nat)
    (hstate : w.state = 3) (hptr : w.m.options = some a)
    (hmiss : ∀ k, Atoi (TrimSpace (submitted env w)) = some k →
      k < 0 ∨ ((w.heap a).length : Int) ≤ k) :
    ∃ w1, Update env w (Msg.KeyMsg KeyType.KeyEnter) = Except.ok (w1, Cmd.Batch) ∧
      Generated w w1 (TrimSpace (submitted env w))
        (env.CreateResponseWithPrompt w.calls (TrimSpace (submitted env w)) "") := by
  have hc : choose env (receive env w (Msg.KeyMsg KeyType.KeyEnter)) =
      Except.ok (generate env (receive env w (Msg.KeyMsg KeyType.KeyEnter))) := by
    simp only [choose]
    cases hA : Atoi (TrimSpace (receive env w (Msg.KeyMsg KeyType.KeyEnter)).m.input) with
    | none => rfl
    | some k =>
      rcases hmiss k hA with hk | hk
      · simp [hk]
      · by_cases hneg : k < 0
        · simp [hneg]
        · simp [hneg, deref, receive, hptr, hk]
  have hs : (receive env w (Msg.KeyMsg KeyType.KeyEnter)).state = 3 := hstate
  have hh : handle env (receive env w (Msg.KeyMsg KeyType.KeyEnter)) (Msg.KeyMsg KeyType.KeyEnter)
      = Except.ok (generate env (receive env w (Msg.KeyMsg KeyType.KeyEnter)), false) := by
    simp [handle, hs, hc]
  obtain ⟨d, -, hd⟩ := Update_of_handle hh
  exact ⟨_, hd, generate_Generated env (receive env w (Msg.KeyMsg KeyType.KeyEnter)) d⟩

theorem choose_otherwise_regenerates_witness :
    (∃ w1, Update exEnv (exWorld 3 "5") (Msg.KeyMsg KeyType.KeyEnter) = Except.ok (w1, Cmd.Batch) ∧
      Generated (exWorld 3 "5") w1 "5" (2, [⟨0, "a"⟩, ⟨0, "b"⟩, ⟨1, "c"⟩])) ∧
    (∃ w1, Update exEnv (exWorld 3 "-1") (Msg.KeyMsg KeyType.KeyEnter) = Except.ok (w1, Cmd.Batch) ∧
      Generated (exWorld 3 "-1") w1 "-1" (2, [⟨0, "a"⟩, ⟨0, "b"⟩, ⟨1, "c"⟩])) ∧
    (∃ w1, Update exEnv (exWorld 3 " abc ") (Msg.KeyMsg KeyType.KeyEnter)
        = Except.ok (w1, Cmd.Batch) ∧
      Generated (exWorld 3 " abc ") w1 "abc" (2, [⟨0, "a"⟩, ⟨0, "b"⟩, ⟨1, "c"⟩])) ∧
    (∃ w1, Update exEnv (exWorld 3 "") (Msg.KeyMsg KeyType.KeyEnter) = Except.ok (w1, Cmd.Batch) ∧
      Generated (exWorld 3 "") w1 "" (2, [⟨0, "a"⟩, ⟨0, "b"⟩, ⟨1, "c"⟩])) :=
  ⟨choose_otherwise_regenerates exEnv (exWorld 3 "5") 0 rfl rfl (by decide),
   choose_otherwise_regenerates exEnv (exWorld 3 "-1") 0 rfl rfl (by decide),
   choose_otherwise_regenerates exEnv (exWorld 3 " abc ") 0 rfl rfl (by decide),
   choose_otherwise_regenerates exEnv (exWorld 3 "") 0 rfl rfl (by decide)⟩

/-- C3: in `AwaitingUserMessage` (state 1), `Update` on Enter makes one
generation request for the trimmed input, points `m.options` to a new slice
whose length is the expected count of that request and whose entries are all
empty, starts the consumer on it and sets the state to -1. -/
theorem awaiting_message_enter_generates (env : Env) (w : World) (hstate : w.state = 1) :
    ∃ w1, Update env w (Msg.KeyMsg KeyType.KeyEnter) = Except.ok (w1, Cmd.Batch) ∧
      Generated w w1 (TrimSpace (submitted env w))
        (env.CreateResponseWithPrompt w.calls (TrimSpace (submitted env w)) "") ∧
      (w1.heap w.next).length
        = (env.CreateResponseWithPrompt w.calls (TrimSpace (submitted env w)) "").1 ∧
      ∀ s ∈ w1.heap w.next, s = "" := by
  have hs : (receive env w (Msg.KeyMsg KeyType.KeyEnter)).state = 1 := hstate
  have hh : handle env (receive env w (Msg.KeyMsg KeyType.KeyEnter)) (Msg.KeyMsg KeyType.KeyEnter)
      = Except.ok (generate env (receive env w (Msg.KeyMsg KeyType.KeyEnter)), false) := by
    simp [handle, hs]
  obtain ⟨d, -, hd⟩ := Update_of_handle hh
  have hg := generate_Generated env (receive env w (Msg.KeyMsg KeyType.KeyEnter)) d
  exact ⟨_, hd, hg, (Generated_fresh hg).1, (Generated_fresh hg).2⟩

theorem awaiting_message_enter_generates_witness :
    ∃ w1, Update exEnv (exWorld 1 " hello ") (Msg.KeyMsg KeyType.KeyEnter)
        = Except.ok (w1, Cmd.Batch) ∧
      Generated (exWorld 1 " hello ") w1 "hello" (2, [⟨0, "a"⟩, ⟨0, "b"⟩, ⟨1, "c"⟩]) ∧
      (w1.heap 1).length = 2 ∧ ∀ s ∈ w1.heap 1, s = "" :=
  awaiting_message_enter_generates exEnv (exWorld 1 " hello ") rfl

/-- C4: in `AwaitingSystemPrompt` (state 0), `Update` on Enter records the
trimmed input as system prompt, calls `SetSystemMessage` with it (once when
it is empty, twice in a row otherwise) and nothing else on the client, and
sets the state to 1. -/
theorem awaiting_system_prompt_enter_sets (env : Env) (w : World) (hstate : w.state = 0) :
    ∃ w1, Update env w (Msg.KeyMsg KeyType.KeyEnter) = Except.ok (w1, Cmd.Batch) ∧
      w1.m.systemPrompt = TrimSpace (submitted env w) ∧
      w1.calls = w.calls ++
        (if TrimSpace (submitted env w) = ""
          then [ClientCall.SetSystemMessage ""]
          else [ClientCall.SetSystemMessage (TrimSpace (submitted env w)),
                ClientCall.SetSystemMessage (TrimSpace (submitted env w))]) ∧
      w1.calls.getLast? = some (ClientCall.SetSystemMessage (TrimSpace (submitted env w))) ∧
      w1.tasks = w.tasks ∧ w1.m.options = w.m.options ∧
      w1.state = 1 := by
  have hs : (receive env w (Msg.KeyMsg KeyType.KeyEnter)).state = 0 := hstate
  have hh : handle env (receive env w (Msg.KeyMsg KeyType.KeyEnter)) (Msg.KeyMsg KeyType.KeyEnter)
      = Except.ok (setSystemPrompt (receive env w (Msg.KeyMsg KeyType.KeyEnter)), false) := by
    simp [handle, hs]
  obtain ⟨d, -, hd⟩ := Update_of_handle hh
  refine ⟨_, hd, rfl, ?_, ?_, rfl, rfl, rfl⟩
  · by_cases ht : TrimSpace (submitted env w) = ""
    · have ht1 : TrimSpace (env.textareaUpdate w.m.input (Msg.KeyMsg KeyType.KeyEnter)) = "" := ht
      simp [setSystemPrompt, receive, ht, ht1]
    · have ht1 : ¬ TrimSpace (env.textareaUpdate w.m.input (Msg.KeyMsg KeyType.KeyEnter)) = "" :=
        ht
      simp [setSystemPrompt, receive, ht, ht1, submitted]
  · simp [setSystemPrompt, receive, submitted]

theorem awaiting_system_prompt_enter_sets_witness :
    ∃ w1, Update exEnv (exWorld 0 "  \n") (Msg.KeyMsg KeyType.KeyEnter)
        = Except.ok (w1, Cmd.Batch) ∧
      w1.m.systemPrompt = TrimSpace "  \n" ∧
      w1.calls = [] ++
        (if TrimSpace "  \n" = ""
          then [ClientCall.SetSystemMessage ""]
          else [ClientCall.SetSystemMessage (TrimSpace "  \n"),
                ClientCall.SetSystemMessage (TrimSpace "  \n")]) ∧
      w1.calls.getLast? = some (ClientCall.SetSystemMessage "") ∧
      w1.tasks = [] ∧ w1.m.options = some 0 ∧
      w1.state = 1 :=
  awaiting_system_prompt_enter_sets exEnv (exWorld 0 "  \n") rfl

/-! ## The display -/

/-- C5, as amended: the display text is the log, a line break and the
in-order rendering of all candidates when a candidate set exists and the
phase is not `AwaitingUserMessage` (1), and the log alone otherwise; this is
what lines 165-175 compute in every state, and what every `Update` that does
not quit leaves as display text, for the phase, log and candidates it ends
with. -/
theorem display_shows_candidates_unless_awaiting_message (env : Env) (w : World) :
    display env w
      = Except.ok (shownDisplay w.state (env.clientString w.calls) (candidates w)) ∧
    (∀ msg w1, Update env w msg = Except.ok (w1, Cmd.Batch) →
      w1.m.disp = shownDisplay w1.state (env.clientString w1.calls) (candidates w1)) := by
  refine ⟨display_eq env w, ?_⟩
  intro msg w1 hU
  unfold Update at hU
  cases hh : handle env (receive env w msg) msg with
  | error e => simp [hh] at hU
  | ok p =>
    obtain ⟨w0, b⟩ := p
    cases b with
    | true => simp [hh] at hU
    | false =>
      simp only [hh, display_eq] at hU
      injection hU with h1
      injection h1 with h2
      subst h2
      rfl

theorem display_shows_candidates_unless_awaiting_message_witness :
    display exEnv (exWorld (-1) "") = Except.ok "log0\n\nResponse 0: first\n\nResponse 1: second\n" ∧
    display exEnv (exWorld 3 "") = Except.ok "log0\n\nResponse 0: first\n\nResponse 1: second\n" ∧
    display exEnv (exWorld 1 "") = Except.ok "log0" ∧
    (display exEnv (exWorld (-1) "")
      = Except.ok (shownDisplay (-1) (exEnv.clientString []) (candidates (exWorld (-1) ""))) ∧
    (∀ msg w1, Update exEnv (exWorld (-1) "") msg = Except.ok (w1, Cmd.Batch) →
      w1.m.disp = shownDisplay w1.state (exEnv.clientString w1.calls) (candidates w1))) :=
  ⟨by decide, by decide, by decide,
   display_shows_candidates_unless_awaiting_message exEnv (exWorld (-1) "")⟩

/-- C5, as stated, fails.  After Enter in state 1 the phase is `Generating`
(-1) and a candidate set exists: the specification's wording gives the log
alone, the program shows the (still empty) candidates.  After a valid choice
in state 3 the phase is 1 and the candidate set still exists: the wording
gives the candidates, the program shows the log alone. -/
theorem display_differs_from_spec_wording :
    (∃ w1, Update exEnv (exWorld 1 "hi") (Msg.KeyMsg KeyType.KeyEnter)
        = Except.ok (w1, Cmd.Batch) ∧
      w1.state = -1 ∧ candidates w1 = some ["", ""] ∧
      w1.m.disp = "log1\n\nResponse 0: \n\nResponse 1: \n" ∧
      specDisplay w1.state (exEnv.clientString w1.calls) (candidates w1) = "log1" ∧
      w1.m.disp ≠ specDisplay w1.state (exEnv.clientString w1.calls) (candidates w1)) ∧
    (∃ w1, Update exEnv (exWorld 3 "1") (Msg.KeyMsg KeyType.KeyEnter)
        = Except.ok (w1, Cmd.Batch) ∧
      w1.state = 1 ∧ candidates w1 = some ["first", "second"] ∧
      w1.m.disp = "log1" ∧
      specDisplay w1.state (exEnv.clientString w1.calls) (candidates w1)
        = "log1\n\nResponse 0: first\n\nResponse 1: second\n" ∧
      w1.m.disp ≠ specDisplay w1.state (exEnv.clientString w1.calls) (candidates w1)) := by
  refine ⟨⟨_, rfl, ?_⟩, ⟨_, rfl, ?_⟩⟩ <;> decide

/-! ## The consumer -/

/-- C6: for every `n` and every finite stream of deltas whose indices all lie
in `[0, n)`, draining the stream into a fresh slice of `n` empty strings ends
without panic, the slice still has length `n`, and for each `i < n` its entry
`i` is the concatenation, in arrival order, of the fragments of the deltas
that name `i`; and this is the slice a consumer goroutine started on that
stream and that slice leaves behind when it ends. -/
theorem drain_fresh_concatenates (n : Nat) (ch : List MessageChunk)
    (hrange : ∀ c ∈ ch, 0 ≤ c.Index ∧ c.Index < (n : Int)) :
    ∃ r, drain (List.replicate n "") ch = Except.ok r ∧ r.length = n ∧
      (∀ i, i < n → r[i]? = some (fragments i ch)) ∧
      ∀ (env : Env) (w : World) (t : Nat) (task : Task),
        w.tasks[t]? = some task → task.ch = ch →
        w.heap task.options = List.replicate n "" →
        ∃ w1, run env w (List.replicate (ch.length + 1) (Event.consumer t)) = Except.ok w1 ∧
          w1.heap task.options = r ∧ w1.state = 2 := by
  obtain ⟨r, hr, hrl, hri⟩ := drain_spec ch (List.replicate n "") (by simpa using hrange)
  refine ⟨r, hr, by simpa using hrl, ?_, ?_⟩
  · intro i hi
    have := hri i "" (by simp [List.getElem?_replicate, hi])
    simpa using this
  · intro env w t task ht hch hfresh
    obtain ⟨w1, r1, hrun, hst, hdr, hheap, -⟩ := consumer_run env ch w t task ht hch (by
      rw [hfresh]
      simpa using hrange)
    rw [hfresh, hr] at hdr
    injection hdr with hrr
    exact ⟨w1, hrun, hheap.trans hrr.symm, hst⟩

theorem drain_fresh_concatenates_witness :
    (∃ r, drain (List.replicate 2 "") [⟨0, "a"⟩, ⟨0, "b"⟩, ⟨1, "c"⟩] = Except.ok r ∧
      r.length = 2 ∧
      (∀ i, i < 2 → r[i]? = some (fragments i [⟨0, "a"⟩, ⟨0, "b"⟩, ⟨1, "c"⟩])) ∧
      ∀ (env : Env) (w : World) (t : Nat) (task : Task),
        w.tasks[t]? = some task → task.ch = [⟨0, "a"⟩, ⟨0, "b"⟩, ⟨1, "c"⟩] →
        w.heap task.options = List.replicate 2 "" →
        ∃ w1, run env w (List.replicate 4 (Event.consumer t)) = Except.ok w1 ∧
          w1.heap task.options = r ∧ w1.state = 2) ∧
    drain (List.replicate 2 "") [⟨0, "a"⟩, ⟨0, "b"⟩, ⟨1, "c"⟩] = Except.ok ["ab", "c"] ∧
    fragments 0 [⟨0, "a"⟩, ⟨0, "b"⟩, ⟨1, "c"⟩] = "ab" ∧
    fragments 1 [⟨0, "a"⟩, ⟨0, "b"⟩, ⟨1, "c"⟩] = "c" ∧
    drain (List.replicate 3 "") [⟨0, "x"⟩, ⟨2, "y"⟩] = Except.ok ["x", "", "y"] :=
  ⟨drain_fresh_concatenates 2 [⟨0, "a"⟩, ⟨0, "b"⟩, ⟨1, "c"⟩] (by decide),
   by decide, by decide, by decide, by decide⟩

/-! ## Quitting, `Busy` and `CandidatesReady` -/

/-- C7, at the state where it fails: in `CandidatesReady` (state 2) the key
Ctrl-C does not quit; whatever the rest of the program state is, `Update`
returns the batch command and sets the state to 3.  The state 2 is reached
from `createModel` by the run `exEventsReady`, and there Ctrl-C is lost in
this way. -/
theorem ctrlC_in_candidates_ready_does_not_quit :
    (∀ (env : Env) (w : World),
      ∃ w1, Update env { w with state := 2 } (Msg.KeyMsg KeyType.KeyCtrlC)
        = Except.ok (w1, Cmd.Batch) ∧ w1.state = 3) ∧
    (∃ w, run exEnv (createModel "a" "o" "m") exEventsReady = Except.ok w ∧ w.state = 2 ∧
      ∃ w1, Update exEnv w (Msg.KeyMsg KeyType.KeyCtrlC) = Except.ok (w1, Cmd.Batch) ∧
        w1.state = 3) := by
  refine ⟨?_, ⟨_, rfl, by decide, _, rfl, by decide⟩⟩
  intro env w
  obtain ⟨d, -, hd⟩ := Update_of_handle (handle_candidates_ready env
    (receive env { w with state := 2 } (Msg.KeyMsg KeyType.KeyCtrlC))
    (Msg.KeyMsg KeyType.KeyCtrlC) rfl)
  exact ⟨_, hd, rfl⟩

/-- C8: in `Busy` (state -1), `Update` on any message but Ctrl-C returns
normally and leaves the state, the pointer, the instruction, the system
prompt, the calls on the client, the consumers and every slice as they were;
a step of the program that leaves state -1 is the step of a consumer whose
channel is closed, and leads to state 2; that step of a consumer whose
channel is closed is always possible and leads to state 2 whatever the slices
hold; and a consumer whose pending deltas are within its slice, scheduled
until its end, gets there. -/
theorem busy_left_only_by_consumer (env : Env) (w : World) (hstate : w.state = -1) :
    (∀ msg, msg ≠ Msg.KeyMsg KeyType.KeyCtrlC →
      ∃ w1, Update env w msg = Except.ok (w1, Cmd.Batch) ∧
        w1.state = -1 ∧ w1.m.options = w.m.options ∧ w1.m.instruction = w.m.instruction ∧
        w1.m.systemPrompt = w.m.systemPrompt ∧ w1.calls = w.calls ∧ w1.tasks = w.tasks ∧
        w1.heap = w.heap ∧ w1.next = w.next) ∧
    (∀ ev w1, step env w ev = Except.ok w1 → w1.state ≠ -1 →
      ∃ t task, ev = Event.consumer t ∧ w.tasks[t]? = some task ∧ task.ch = [] ∧
        w1.state = 2) ∧
    (∀ t task, w.tasks[t]? = some task → task.ch = [] →
      ∃ w1, step env w (Event.consumer t) = Except.ok w1 ∧ w1.state = 2 ∧
        w1.heap = w.heap ∧ w1.m = w.m) ∧
    (∀ t task, w.tasks[t]? = some task →
      (∀ c ∈ task.ch, 0 ≤ c.Index ∧ c.Index < ((w.heap task.options).length : Int)) →
      ∃ w1, run env w (List.replicate (task.ch.length + 1) (Event.consumer t)) = Except.ok w1 ∧
        w1.state = 2) := by
  refine ⟨?_, ?_, ?_, ?_⟩
  · intro msg hmsg
    have hs : (receive env w msg).state = -1 := hstate
    have hh : handle env (receive env w msg) msg = Except.ok (receive env w msg, false) := by
      simp only [handle, hs, if_true]
      cases msg with
      | KeyMsg key => cases key <;> simp at hmsg ⊢
      | _ => rfl
    obtain ⟨d, -, hd⟩ := Update_of_handle hh
    refine ⟨_, hd, hstate, ?_, ?_, ?_, rfl, rfl, rfl, rfl⟩ <;> cases msg <;> rfl
  · intro ev w1 hstep hne
    cases ev with
    | update msg =>
      exfalso
      apply hne
      by_cases hmsg : msg = Msg.KeyMsg KeyType.KeyCtrlC
      · subst hmsg
        simp [step, ctrlC_quits env w (Or.inl hstate)] at hstep
        rw [← hstep]
        exact hstate
      · have hs : (receive env w msg).state = -1 := hstate
        have hh : handle env (receive env w msg) msg = Except.ok (receive env w msg, false) := by
          simp only [handle, hs, if_true]
          cases msg with
          | KeyMsg key => cases key <;> simp at hmsg ⊢
          | _ => rfl
        obtain ⟨d, -, hd⟩ := Update_of_handle hh
        simp [step, hd] at hstep
        rw [← hstep]
        exact hstate
    | consumer t =>
      simp only [step, taskStep] at hstep
      cases ht : w.tasks[t]? with
      | none =>
        simp [ht] at hstep
        exact absurd (hstep ▸ hstate) hne
      | some task =>
        cases hch : task.ch with
        | nil =>
          simp [ht, hch] at hstep
          exact ⟨t, task, rfl, ht, hch, by rw [← hstep]⟩
        | cons chunk rest =>
          exfalso
          apply hne
          simp only [ht, hch, deref] at hstep
          cases hac : applyChunk (w.heap task.options) chunk with
          | error e => simp [hac] at hstep
          | ok opts1 =>
            simp [hac] at hstep
            rw [← hstep]
            exact hstate
  · intro t task ht hch
    refine ⟨{ w with state := 2, tasks := w.tasks.eraseIdx t }, ?_, rfl, rfl, rfl⟩
    simp [step, taskStep, ht, hch]
  · intro t task ht hrange
    obtain ⟨w1, r, hrun, hst, -⟩ := consumer_run env task.ch w t task ht rfl hrange
    exact ⟨w1, hrun, hst⟩

theorem busy_left_only_by_consumer_witness :
    exBusy.state = -1 ∧
    (∃ w1, run exEnv exBusy [Event.consumer 0, Event.consumer 0, Event.consumer 0]
        = Except.ok w1 ∧ w1.state = 2 ∧ candidates w1 = some ["x", "", "y"]) ∧
    (∃ w1, Update exEnv exBusy (Msg.KeyMsg KeyType.KeyEnter) = Except.ok (w1, Cmd.Batch) ∧
      w1.state = -1 ∧ w1.m.options = some 0 ∧ w1.m.instruction = instructionWait ∧
      w1.m.systemPrompt = "" ∧ w1.calls = [] ∧ w1.tasks = exBusy.tasks ∧
      w1.heap = exBusy.heap ∧ w1.next = 1) :=
  ⟨rfl, ⟨_, rfl, by decide, by decide⟩,
   (busy_left_only_by_consumer exEnv exBusy rfl).1 (Msg.KeyMsg KeyType.KeyEnter) (by decide)⟩

/-- C9: in `CandidatesReady` (state 2), `Update` on any message at all sets
the state to 3, empties the input, sets the instruction to the
choose-an-option text, and leaves the pointer, every slice, the calls on the
client and the consumers as they were. -/
theorem candidates_ready_advances (env : Env) (w : World) (msg : Msg) (hstate : w.state = 2) :
    ∃ w1, Update env w msg = Except.ok (w1, Cmd.Batch) ∧
      w1.state = 3 ∧ w1.m.input = "" ∧ w1.m.instruction = instructionChoose ∧
      w1.m.options = w.m.options ∧ w1.heap = w.heap ∧ w1.next = w.next ∧
      w1.calls = w.calls ∧ w1.tasks = w.tasks := by
  obtain ⟨d, -, hd⟩ := Update_of_handle
    (handle_candidates_ready env (receive env w msg) msg hstate)
  refine ⟨_, hd, rfl, rfl, rfl, ?_, rfl, rfl, rfl, rfl⟩
  cases msg <;> rfl

theorem candidates_ready_advances_witness :
    ∃ w1, Update exEnv (exWorld 2 "typed") Msg.OtherMsg = Except.ok (w1, Cmd.Batch) ∧
      w1.state = 3 ∧ w1.m.input = "" ∧ w1.m.instruction = instructionChoose ∧
      w1.m.options = some 0 ∧ w1.heap = (exWorld 2 "typed").heap ∧ w1.next = 1 ∧
      w1.calls = [] ∧ w1.tasks = [] :=
  candidates_ready_advances exEnv (exWorld 2 "typed") Msg.OtherMsg rfl

/-! ## Reachable states -/

/-- C10: in every state reached from `createModel` by a run of `Update` steps
and consumer steps, the state is one of -1, 0, 1, 2, 3, the pointer
`m.options` is not nil whenever the state is -1, 2 or 3, and `Update`
returns normally on every message, so that in particular the `len` test and
the indexed read of state 3 neither dereference nil nor index out of
range. -/
theorem reachable_states_are_safe (env : Env) (aKey oKey mKey : String) (evs : List Event)
    (w : World) (hrun : run env (createModel aKey oKey mKey) evs = Except.ok w) :
    (w.state = -1 ∨ w.state = 0 ∨ w.state = 1 ∨ w.state = 2 ∨ w.state = 3) ∧
    ((w.state = -1 ∨ w.state = 2 ∨ w.state = 3) → w.m.options ≠ none) ∧
    (∀ msg, ∃ w1 cmd, Update env w msg = Except.ok (w1, cmd)) := by
  have h := run_Inv env evs _ w (Inv_createModel aKey oKey mKey) hrun
  refine ⟨h.1, h.2.1, ?_⟩
  intro msg
  obtain ⟨w1, cmd, hU, -⟩ := Update_ok env w msg h
  exact ⟨w1, cmd, hU⟩

theorem reachable_states_are_safe_witness :
    run exEnv (createModel "a" "o" "m") exEvents = Except.ok exReached ∧
    exReached.state = 3 ∧ candidates exReached = some ["ab", "c"] ∧
    ((exReached.state = -1 ∨ exReached.state = 0 ∨ exReached.state = 1 ∨ exReached.state = 2 ∨
        exReached.state = 3) ∧
      ((exReached.state = -1 ∨ exReached.state = 2 ∨ exReached.state = 3) →
        exReached.m.options ≠ none) ∧
      (∀ msg, ∃ w1 cmd, Update exEnv exReached msg = Except.ok (w1, cmd))) :=
  ⟨rfl, by decide, by decide,
   reachable_states_are_safe exEnv "a" "o" "m" exEvents exReached rfl⟩

end SimpleAiChatbox
